import Mathlib

/-!
Shallow embedding of `omniledger/service/transaction.go` (package `service`)
from the SwissDataScienceCenter/cothority repository, together with proofs
about its digesting, authorization-request derivation and transaction
ordering logic.

Go byte slices are modelled as `List Nat` (one entry per byte), Go strings as
Lean `String` (their bytes via `strBytes`), Go pointers to payload structs as
`Option`, and fallible Go functions as `Except`-valued Lean functions.
External collaborators that are not part of the repository (the `network`
wire codec, the `protobuf` encoder, the `collection` store and the `darc`
package's plain data constructors) are modelled as explicit parameters or as
spec-modelled definitions, marked as such in their doc comments.
-/

namespace OLT

/-- A byte sequence: each entry is one byte value, kept in `Nat`. -/
abbrev Bytes := List Nat

/-- The 32-bit word modulus used by SHA-256 word arithmetic. -/
def w32 : Nat := 2 ^ 32

/-! ### SHA-256 (Go `crypto/sha256`), executable reference implementation -/

/-- Right-rotation of a 32-bit word by `n` places. -/
def rotr32 (n x : Nat) : Nat := (x / 2 ^ n + x % 2 ^ n * 2 ^ (32 - n)) % w32

/-- Bitwise complement of a 32-bit word. -/
def bnot32 (x : Nat) : Nat := (w32 - 1) - x % w32

/-- SHA-256 `Ch` function. -/
def sha2ch (x y z : Nat) : Nat := (x &&& y) ^^^ (bnot32 x &&& z)

/-- SHA-256 `Maj` function. -/
def sha2maj (x y z : Nat) : Nat := (x &&& y) ^^^ (x &&& z) ^^^ (y &&& z)

/-- SHA-256 big sigma-0. -/
def sigB0 (x : Nat) : Nat := rotr32 2 x ^^^ rotr32 13 x ^^^ rotr32 22 x

/-- SHA-256 big sigma-1. -/
def sigB1 (x : Nat) : Nat := rotr32 6 x ^^^ rotr32 11 x ^^^ rotr32 25 x

/-- SHA-256 small sigma-0. -/
def sigS0 (x : Nat) : Nat := rotr32 7 x ^^^ rotr32 18 x ^^^ x / 2 ^ 3

/-- SHA-256 small sigma-1. -/
def sigS1 (x : Nat) : Nat := rotr32 17 x ^^^ rotr32 19 x ^^^ x / 2 ^ 10

/-- The 64 SHA-256 round constants (FIPS 180-4, written in decimal). -/
def sha2K : List Nat :=
  [1116352408, 1899447441, 3049323471, 3921009573, 961987163, 1508970993,
   2453635748, 2870763221, 3624381080, 310598401, 607225278, 1426881987,
   1925078388, 2162078206, 2614888103, 3248222580, 3835390401, 4022224774,
   264347078, 604807628, 770255983, 1249150122, 1555081692, 1996064986,
   2554220882, 2821834349, 2952996808, 3210313671, 3336571891, 3584528711,
   113926993, 338241895, 666307205, 773529912, 1294757372, 1396182291,
   1695183700, 1986661051, 2177026350, 2456956037, 2730485921, 2820302411,
   3259730800, 3345764771, 3516065817, 3600352804, 4094571909, 275423344,
   430227734, 506948616, 659060556, 883997877, 958139571, 1322822218,
   1537002063, 1747873779, 1955562222, 2024104815, 2227730452, 2361852424,
   2428436474, 2756734187, 3204031479, 3329325298]

/-- Big-endian 64-bit length field appended by SHA-256 padding. -/
def be64 (n : Nat) : Bytes :=
  [n / 2 ^ 56 % 256, n / 2 ^ 48 % 256, n / 2 ^ 40 % 256, n / 2 ^ 32 % 256,
   n / 2 ^ 24 % 256, n / 2 ^ 16 % 256, n / 2 ^ 8 % 256, n % 256]

/-- Big-endian byte decomposition of a 32-bit word. -/
def wordBE (w : Nat) : Bytes := [w / 2 ^ 24 % 256, w / 2 ^ 16 % 256, w / 2 ^ 8 % 256, w % 256]

/-- SHA-256 padding: a `0x80` byte, zeros to 56 mod 64, then the bit length. -/
def sha2pad (msg : Bytes) : Bytes :=
  msg ++ 0x80 :: List.replicate ((119 - msg.length % 64) % 64) 0 ++ be64 (8 * msg.length)

/-- Group bytes into big-endian 32-bit words. -/
def bytesToWords : Bytes → List Nat
  | b0 :: b1 :: b2 :: b3 :: rest => (((b0 * 256 + b1) * 256 + b2) * 256 + b3) :: bytesToWords rest
  | _ => []

/-- One step of the SHA-256 message-schedule extension: append the next word. -/
def nextWord (ws : List Nat) : Nat :=
  let i := ws.length
  (sigS1 (ws.getD (i - 2) 0) + ws.getD (i - 7) 0 + sigS0 (ws.getD (i - 15) 0)
    + ws.getD (i - 16) 0) % w32

/-- Extend the message schedule by `n` further words. -/
def extendWords (ws : List Nat) : Nat → List Nat
  | 0 => ws
  | n + 1 => extendWords (ws ++ [nextWord ws]) n

/-- The eight 32-bit words of the SHA-256 working state. -/
structure Sha2State where
  a : Nat
  b : Nat
  c : Nat
  d : Nat
  e : Nat
  f : Nat
  g : Nat
  h : Nat

/-- SHA-256 initial hash state. -/
def sha2init : Sha2State :=
  ⟨1779033703, 3144134277, 1013904242, 2773480762, 1359893119, 2600822924, 528734635, 1541459225⟩

/-- One SHA-256 compression round. -/
def sha2round (s : Sha2State) (kw : Nat × Nat) : Sha2State :=
  let t1 := (s.h + sigB1 s.e + sha2ch s.e s.f s.g + kw.1 + kw.2) % w32
  let t2 := (sigB0 s.a + sha2maj s.a s.b s.c) % w32
  ⟨(t1 + t2) % w32, s.a, s.b, s.c, (s.d + t1) % w32, s.e, s.f, s.g⟩

/-- Compress one 64-byte block into the running state. -/
def sha2block (s : Sha2State) (block : Bytes) : Sha2State :=
  let ws := extendWords (bytesToWords block) 48
  let t := (sha2K.zip ws).foldl sha2round s
  ⟨(s.a + t.a) % w32, (s.b + t.b) % w32, (s.c + t.c) % w32, (s.d + t.d) % w32,
   (s.e + t.e) % w32, (s.f + t.f) % w32, (s.g + t.g) % w32, (s.h + t.h) % w32⟩

/-- Split a byte sequence into 64-byte blocks, structurally recursive on a
fuel that bounds the number of blocks (each step consumes at least one byte,
so the byte count itself is enough fuel). -/
def toBlocksF : Nat → Bytes → List Bytes
  | _, [] => []
  | 0, _ :: _ => []
  | Nat.succ fuel, b :: rest => (b :: rest).take 64 :: toBlocksF fuel ((b :: rest).drop 64)

/-- Split a byte sequence into 64-byte blocks. -/
def toBlocks (l : Bytes) : List Bytes := toBlocksF l.length l

/-- SHA-256 digest of a byte sequence: 32 bytes, big-endian word order. -/
def sha256 (msg : Bytes) : Bytes :=
  let fin := (toBlocks (sha2pad msg)).foldl sha2block sha2init
  wordBE fin.a ++ wordBE fin.b ++ wordBE fin.c ++ wordBE fin.d
    ++ wordBE fin.e ++ wordBE fin.f ++ wordBE fin.g ++ wordBE fin.h

/-- A SHA-256 digest is always exactly 32 bytes long. -/
theorem sha256_length (msg : Bytes) : (sha256 msg).length = 32 := by
  simp [sha256, wordBE]

/-! ### Data model (`transaction.go`) -/

/-- The bytes of a Go string (`[]byte(s)`), modelled as the code points of the
Lean string: injective and concatenation-compatible, like the UTF-8 bytes. -/
def strBytes (s : String) : Bytes := s.data.map Char.toNat

/-- A Go string rebuilt from stored bytes (`string(cv[1])`). -/
def strOfBytes (b : Bytes) : String := ⟨b.map Char.ofNat⟩

/-- Go `uint32(i)` applied to an `int`: two's-complement reduction mod `2^32`. -/
def u32ofInt (i : Int) : Nat := (i % (2 ^ 32 : Nat)).toNat

/-- `binary.LittleEndian.PutUint32`: the four little-endian bytes of a word. -/
def le32 (n : Nat) : Bytes := [n % 256, n / 2 ^ 8 % 256, n / 2 ^ 16 % 256, n / 2 ^ 24 % 256]

/-- Identity of a signer (`darc.Identity`), opaque bytes to this file. -/
abbrev Identity := Bytes

/-- A `darc.Signature`: the signer's identity plus the raw signature bytes. -/
structure Signature where
  signer : Identity
  signature : Bytes
deriving DecidableEq

/-- `ObjectID` points to an object holding contract state: the base ID of the
controlling darc plus a 32-byte instance identifier. -/
structure ObjectID where
  darcID : Bytes
  instanceID : Bytes
deriving DecidableEq

/-- `ObjectID.Slice`: concatenated DarcID and InstanceID. -/
def ObjectID.slice (oid : ObjectID) : Bytes := oid.darcID ++ oid.instanceID

/-- An `Argument` is a name/value pair passed to the object. -/
structure Argument where
  name : String
  value : Bytes
deriving DecidableEq

/-- `Spawn` payload: contract kind to create plus its arguments. -/
structure Spawn where
  contractID : String
  args : List Argument
deriving DecidableEq

/-- `Invoke` payload: object-specific command plus its arguments. -/
structure Invoke where
  command : String
  args : List Argument
deriving DecidableEq

/-- `Instruction`: the atomic unit of ledger mutation. The three payload
pointers `Spawn`/`Invoke`/`Delete` are modelled as `Option`s (`Delete` is an
empty struct, hence `Option Unit`). -/
structure Instruction where
  objectID : ObjectID
  nonce : Bytes
  index : Int
  length : Int
  spawn : Option Spawn
  invoke : Option Invoke
  delete : Option Unit
  signatures : List Signature
deriving DecidableEq

/-- `Arguments.Search`: value of the first argument with the given name, or
`none` (Go: `nil`) when absent. -/
def argsSearch (args : List Argument) (name : String) : Option Bytes :=
  match args with
  | [] => none
  | a :: rest => if a.name = name then some a.value else argsSearch rest name

/-- The bytes of one instruction's argument list as written into the digest:
each argument's name followed by its raw value, in list order. -/
def argsBytes (args : List Argument) : Bytes :=
  (args.map (fun a => strBytes a.name ++ a.value)).flatten

/-- The byte stream `Instruction.Hash` feeds into SHA-256, in the order of the
Go `h.Write` calls: DarcID, InstanceID, Nonce, Index and Length as
little-endian 32-bit fields, then (first matching case of the Go `switch`) the
payload tag byte with the Spawn contract kind, and the selected payload's
arguments. With no payload set, no tag and no arguments are written. -/
def instrHashInput (instr : Instruction) : Bytes :=
  instr.objectID.darcID ++ instr.objectID.instanceID ++ instr.nonce
    ++ le32 (u32ofInt instr.index) ++ le32 (u32ofInt instr.length)
    ++ (match instr.spawn, instr.invoke, instr.delete with
        | some s, _, _ => 0 :: (strBytes s.contractID ++ argsBytes s.args)
        | none, some iv, _ => 1 :: argsBytes iv.args
        | none, none, some _ => [2]
        | none, none, none => [])

/-- `Instruction.Hash`: the SHA-256 digest of the written byte stream. -/
def Instruction.Hash (instr : Instruction) : Bytes := sha256 (instrHashInput instr)

/-- Go `copy(iid[:], sum)` into a zeroed 32-byte `Nonce` array. -/
def nonceOfBytes (b : Bytes) : Bytes := b.take 32 ++ List.replicate (32 - b.length) 0

/-- `Instruction.DeriveID`: a new `ObjectID` from the purpose string, the
instruction's hash, and each signature's raw bytes (the signer identity write
is commented out in the source). -/
def Instruction.DeriveID (instr : Instruction) (what : String) : ObjectID :=
  let sum := sha256 (strBytes what ++ instr.Hash
    ++ (instr.signatures.map (fun s => s.signature)).flatten)
  { darcID := instr.objectID.darcID, instanceID := nonceOfBytes sum }

/-- `Instruction.Action`: the action label, via the Go `switch` (first match
wins); `"invalid"` is the initial value kept when no payload is set. -/
def Instruction.Action (instr : Instruction) : String :=
  match instr.spawn, instr.invoke, instr.delete with
  | some s, _, _ => "spawn:" ++ s.contractID
  | none, some iv, _ => "invoke:" ++ iv.command
  | none, none, some _ => "Delete"
  | none, none, none => "invalid"

/-- The instruction type enumeration (`instrType`). -/
inductive InstrType
  | InvalidInstrType
  | SpawnType
  | InvokeType
  | DeleteType
deriving DecidableEq

/-- `Instruction.GetType`: classify the instruction, demanding exactly one
payload pointer to be non-nil, else invalid. -/
def Instruction.GetType (instr : Instruction) : InstrType :=
  if instr.spawn ≠ none ∧ instr.invoke = none ∧ instr.delete = none then
    InstrType.SpawnType
  else if instr.spawn = none ∧ instr.invoke ≠ none ∧ instr.delete = none then
    InstrType.InvokeType
  else if instr.spawn = none ∧ instr.invoke = none ∧ instr.delete ≠ none then
    InstrType.DeleteType
  else
    InstrType.InvalidInstrType

/-! ### Object/state resolver -/

/-- Error classes of the external key/value store (spec §6/§7): a missing key
and a malformed record. -/
inductive CollErr
  | notFound
  | malformed
deriving DecidableEq

/-- Modelled from the spec: the external key/value store view (the
`collection` package is not under `src/`). Per §6, `Get(key)` yields a record
handle; a missing key surfaces a not-found error, and `Values()` either fails
with a malformed-record error or yields the fixed two-field convention,
here as the pair (value 0 = state bytes, value 1 = contract-kind bytes). -/
structure CollectionView where
  get : Bytes → Except CollErr (Bytes × Bytes)

/-- `Instruction.GetContractState`: for Spawn the contract kind comes from the
payload with empty prior state; otherwise the record for the serialized
`ObjectID` is looked up and its two values decoded, propagating store errors. -/
def Instruction.GetContractState (instr : Instruction) (coll : CollectionView) :
    Except CollErr (String × Bytes) :=
  match instr.spawn with
  | some s => Except.ok (s.contractID, [])
  | none =>
    match coll.get instr.objectID.slice with
    | Except.error e => Except.error e
    | Except.ok cv => Except.ok (strOfBytes cv.2, cv.1)

/-! ### Authorization request builder -/

/-- Modelled from the spec: a policy document ("darc"; the `darc` package is
not under `src/`), reduced to what this file consumes — its identifier, as
`GetID` returns it. -/
structure Darc where
  id : Bytes
deriving DecidableEq

/-- Modelled from the spec: `darc.NewFromProtobuf` parses a serialized policy
document, failing when the buffer is missing (`nil`) or does not parse; a
parsed document's identifier is determined by its bytes. -/
def newFromProtobuf (buf : Option Bytes) : Except String Darc :=
  match buf with
  | none => Except.error "no darc data"
  | some b => if b = [] then Except.error "no darc data" else Except.ok ⟨sha256 b⟩

/-- Modelled from the spec: the authorization request handed to the policy
engine (§6): `{policyBaseID, action, messageDigest, identities[], signatures[]}`;
`darc.InitRequest` fills exactly these five fields. -/
structure Request where
  baseID : Bytes
  action : String
  msg : Bytes
  identities : List Identity
  signatures : List Bytes
deriving DecidableEq

/-- Modelled from the spec: `darc.InitRequest` assembles the request fields. -/
def initRequest (baseID : Bytes) (action : String) (msg : Bytes)
    (ids : List Identity) (sigs : List Bytes) : Request :=
  ⟨baseID, action, msg, ids, sigs⟩

/-- `Instruction.ToDarcRequest`: convert the instruction into a darc request.
The `"_evolve"` branch reads the `"darc"` argument of the Invoke payload; in
Go that line dereferences `instr.Invoke`, which would panic were the branch
ever reached with a nil Invoke (modelled as an error). -/
def Instruction.ToDarcRequest (instr : Instruction) : Except String Request :=
  let baseID := instr.objectID.darcID
  let action := instr.Action
  let ids := instr.signatures.map (fun s => s.signer)
  let sigs := instr.signatures.map (fun s => s.signature)
  if action = "_evolve" then
    match instr.invoke with
    | some iv =>
      match newFromProtobuf (argsSearch iv.args "darc") with
      | Except.error e => Except.error e
      | Except.ok d => Except.ok (initRequest baseID action d.id ids sigs)
    | none => Except.error "nil Invoke payload"
  else
    Except.ok (initRequest baseID action instr.Hash ids sigs)

/-! ### State changes -/

/-- `StateAction` tags how the store will be modified. -/
inductive StateAction
  | Create
  | Update
  | Remove
deriving DecidableEq

/-- `StateChange`: one new state to apply to the collection. -/
structure StateChange where
  stateAction : StateAction
  objectID : Bytes
  contractID : Bytes
  value : Bytes
deriving DecidableEq

/-- `StateChanges.Hash`, with the external protobuf encoder (`dedis/protobuf`,
not part of this repository) as a parameter: each entry's encoding is written
into one running SHA-256; when encoding an entry fails, Go only logs at level
2 and writes the nil buffer — nothing — for that entry, and no error reaches
the caller. -/
def stateChangesHash (enc : StateChange → Option Bytes) (scs : List StateChange) : Bytes :=
  sha256 ((scs.map (fun sc => (enc sc).getD [])).flatten)

/-! ### Anti-censorship orderer -/

/-- A `ClientTransaction`: an ordered batch of instructions. -/
structure ClientTransaction where
  instructions : List Instruction
deriving DecidableEq

/-- Go `bytes.Compare`: lexicographic three-way comparison of byte slices. -/
def bytesCompare : Bytes → Bytes → Ordering
  | [], [] => Ordering.eq
  | [], _ :: _ => Ordering.lt
  | _ :: _, [] => Ordering.gt
  | x :: xs, y :: ys =>
    if x < y then Ordering.lt
    else if y < x then Ordering.gt
    else bytesCompare xs ys

/-- The salted sort key of `sortWithSalt`: the digest of the salt prepended to
the transaction's byte representation. -/
def saltedKey (salt t : Bytes) : Bytes := sha256 (salt ++ t)

/-- The "not above" ordering `sortWithSalt` sorts by, wired from Go's `less`
predicate `bytes.Compare(h1, h2) == -1`: `x` may precede `y` iff `y`'s salted
key is not smaller. -/
def saltedLE (salt x y : Bytes) : Bool :=
  bytesCompare (saltedKey salt x) (saltedKey salt y) ≠ Ordering.gt

/-- `sortWithSalt` sorts the encoded transactions ascending by salted key.
Go's `sort.Slice` leaves tied keys in unspecified order; it is modelled
deterministically as a stable merge sort. -/
def sortWithSalt (ts : List Bytes) (salt : Bytes) : List Bytes :=
  ts.mergeSort (saltedLE salt)

/-- Byte-wise XOR of two byte sequences. -/
def xorBytes (a b : Bytes) : Bytes := List.zipWith Nat.xor a b

/-- `xorTransactions`: XOR of the SHA-256 digests of all encoded transactions,
starting from 32 zero bytes. -/
def xorTransactions (ts : List Bytes) : Bytes :=
  ts.foldl (fun acc t => xorBytes acc (sha256 t)) (List.replicate 32 0)

/-- The external wire codec (`network.Marshal`/`network.Unmarshal`, from the
`onet` library, not part of this repository). `unmarshal` folds in the Go-side
type assertion to `*ClientTransaction` ("Data of wrong type"). -/
structure Codec where
  marshal : ClientTransaction → Except String Bytes
  unmarshal : Bytes → Except String ClientTransaction

/-- First-failure traversal mirroring a Go loop with an early error return. -/
def mapExcept (f : α → Except String β) : List α → Except String (List β)
  | [] => Except.ok []
  | x :: xs =>
    match f x with
    | Except.error e => Except.error e
    | Except.ok y =>
      match mapExcept f xs with
      | Except.error e => Except.error e
      | Except.ok ys => Except.ok (y :: ys)

/-- `sortTransactions`, the in-place Go function as a state transformer: the
pair holds the returned error value and the final contents of the slice. As in
the Go code, the slice is written only after every marshal and unmarshal has
succeeded; any earlier failure returns with the contents untouched. -/
def sortTransactions (c : Codec) (ts : List ClientTransaction) :
    Except String Unit × List ClientTransaction :=
  match mapExcept c.marshal ts with
  | Except.error e => (Except.error e, ts)
  | Except.ok bs =>
    let salt := xorTransactions bs
    let sorted := sortWithSalt bs salt
    match mapExcept c.unmarshal sorted with
    | Except.error e => (Except.error e, ts)
    | Except.ok sortedTs => (Except.ok (), sortedTs)

/-! ### Spec-side definitions, compared against the code -/

/-- How many of the three payload pointers are set. The data-model invariant
(spec §3) demands exactly one. -/
def payloadCount (instr : Instruction) : Nat :=
  (if instr.spawn ≠ none then 1 else 0) + (if instr.invoke ≠ none then 1 else 0)
    + (if instr.delete ≠ none then 1 else 0)

/-- The digest preimage as the specification words it (§4.1): target policy
ID, instance ID, nonce, index and length as little-endian 32-bit fields, a
one-byte payload-kind tag (0 Spawn, 1 Invoke, 2 Delete), the contract-kind
string when Spawn, then each argument's name followed by its raw value in
list order; the Invoke command string is absent. Stated for operations
satisfying the exactly-one-payload invariant; other shapes are outside it. -/
def specHashLayout (instr : Instruction) : Bytes :=
  instr.objectID.darcID ++ instr.objectID.instanceID ++ instr.nonce
    ++ le32 (u32ofInt instr.index) ++ le32 (u32ofInt instr.length)
    ++ (match instr.spawn, instr.invoke, instr.delete with
        | some s, none, none => 0 :: (strBytes s.contractID ++ argsBytes s.args)
        | none, some iv, none => 1 :: argsBytes iv.args
        | none, none, some _ => [2]
        | _, _, _ => [])

/-- The byte-level pipeline at the heart of `sortTransactions` (`Order`):
derive the salt from the encoded batches, then sort them by salted key. -/
def orderBytes (bs : List Bytes) : List Bytes := sortWithSalt bs (xorTransactions bs)

/-! ### Helper lemmas -/

/-- `bytes.Compare` returns `eq` exactly on equal byte slices. -/
theorem bytesCompare_eq_iff (a : Bytes) : ∀ b, bytesCompare a b = Ordering.eq ↔ a = b := by
  induction a with
  | nil => intro b; cases b <;> simp [bytesCompare]
  | cons x xs ih =>
    intro b
    cases b with
    | nil => simp [bytesCompare]
    | cons y ys =>
      simp only [bytesCompare]
      by_cases h1 : x < y
      · simp [h1, show x ≠ y by omega]
      · by_cases h2 : y < x
        · simp [h1, h2, show x ≠ y by omega]
        · have hxy : x = y := by omega
          subst hxy
          simp [h1, h2, ih ys]

/-- Comparing in the other direction swaps the verdict. -/
theorem bytesCompare_swap (a : Bytes) : ∀ b, bytesCompare b a = (bytesCompare a b).swap := by
  induction a with
  | nil => intro b; cases b <;> simp [bytesCompare, Ordering.swap]
  | cons x xs ih =>
    intro b
    cases b with
    | nil => simp [bytesCompare, Ordering.swap]
    | cons y ys =>
      simp only [bytesCompare]
      by_cases h1 : x < y
      · simp [h1, show ¬y < x by omega, Ordering.swap]
      · by_cases h2 : y < x
        · simp [h1, h2, Ordering.swap]
        · simp [h1, h2, ih ys]

/-- Unfolding one step of the lexicographic `lt` verdict. -/
theorem bytesCompare_cons_lt {x y : Nat} {xs ys : Bytes} :
    bytesCompare (x :: xs) (y :: ys) = Ordering.lt
      ↔ x < y ∨ (x = y ∧ bytesCompare xs ys = Ordering.lt) := by
  simp only [bytesCompare]
  by_cases h1 : x < y
  · simp [h1]
  · by_cases h2 : y < x
    · simp [h1, h2, show x ≠ y by omega]
    · have hxy : x = y := by omega
      subst hxy
      simp [h1, h2]

/-- The lexicographic `lt` verdict is transitive. -/
theorem bytesCompare_lt_trans (a : Bytes) : ∀ b c : Bytes,
    bytesCompare a b = Ordering.lt → bytesCompare b c = Ordering.lt →
    bytesCompare a c = Ordering.lt := by
  induction a with
  | nil =>
    intro b c h1 h2
    cases b with
    | nil => simp [bytesCompare] at h1
    | cons y ys =>
      cases c with
      | nil => simp [bytesCompare] at h2
      | cons z zs => simp [bytesCompare]
  | cons x xs ih =>
    intro b c h1 h2
    cases b with
    | nil => simp [bytesCompare] at h1
    | cons y ys =>
      cases c with
      | nil => simp [bytesCompare] at h2
      | cons z zs =>
        rcases bytesCompare_cons_lt.mp h1 with hxy | ⟨hxy, hr1⟩ <;>
          rcases bytesCompare_cons_lt.mp h2 with hyz | ⟨hyz, hr2⟩
        · exact bytesCompare_cons_lt.mpr (Or.inl (by omega))
        · exact bytesCompare_cons_lt.mpr (Or.inl (by omega))
        · exact bytesCompare_cons_lt.mpr (Or.inl (by omega))
        · exact bytesCompare_cons_lt.mpr (Or.inr ⟨by omega, ih ys zs hr1 hr2⟩)

/-- "Not above" means below or byte-for-byte equal. -/
theorem bytesCompare_notgt_iff (a b : Bytes) :
    bytesCompare a b ≠ Ordering.gt ↔ bytesCompare a b = Ordering.lt ∨ a = b := by
  cases h : bytesCompare a b <;> simp_all [← bytesCompare_eq_iff a b]

/-- Two byte slices neither of which lexicographically exceeds the other are
equal. -/
theorem bytesCompare_antisymm {a b : Bytes} (h1 : bytesCompare a b ≠ Ordering.gt)
    (h2 : bytesCompare b a ≠ Ordering.gt) : a = b := by
  rcases (bytesCompare_notgt_iff a b).mp h1 with hlt | heq
  · rcases (bytesCompare_notgt_iff b a).mp h2 with hlt' | heq'
    · rw [bytesCompare_swap, hlt] at hlt'
      simp [Ordering.swap] at hlt'
    · exact heq'.symm
  · exact heq

/-- The "not above" verdict is transitive. -/
theorem bytesCompare_notgt_trans {a b c : Bytes} (h1 : bytesCompare a b ≠ Ordering.gt)
    (h2 : bytesCompare b c ≠ Ordering.gt) : bytesCompare a c ≠ Ordering.gt := by
  rcases (bytesCompare_notgt_iff a b).mp h1 with hlt | heq
  · rcases (bytesCompare_notgt_iff b c).mp h2 with hlt' | heq'
    · exact (bytesCompare_notgt_iff a c).mpr (Or.inl (bytesCompare_lt_trans a b c hlt hlt'))
    · subst heq'
      exact (bytesCompare_notgt_iff _ _).mpr (Or.inl hlt)
  · subst heq
    exact h2

/-- The salted comparison is transitive. -/
theorem saltedLE_trans (salt : Bytes) (a b c : Bytes) (h1 : saltedLE salt a b = true)
    (h2 : saltedLE salt b c = true) : saltedLE salt a c = true := by
  simp only [saltedLE, decide_eq_true_eq] at h1 h2 ⊢
  exact bytesCompare_notgt_trans h1 h2

/-- The salted comparison is total. -/
theorem saltedLE_total (salt : Bytes) (a b : Bytes) :
    (saltedLE salt a b || saltedLE salt b a) = true := by
  simp only [saltedLE, Bool.or_eq_true, decide_eq_true_eq]
  by_cases h : bytesCompare (saltedKey salt a) (saltedKey salt b) = Ordering.gt
  · refine Or.inr ?_
    rw [bytesCompare_swap, h]
    simp [Ordering.swap]
  · exact Or.inl h

/-- A permutation of two sorted lists over a total comparison that is
antisymmetric on their members is an equality. -/
theorem sorted_perm_eq {α : Type _} (le : α → α → Bool) :
    ∀ l₁ l₂ : List α, l₁.Perm l₂ → l₁.Pairwise (fun a b => le a b = true) →
      l₂.Pairwise (fun a b => le a b = true) →
      (∀ a ∈ l₁, ∀ b ∈ l₁, le a b = true → le b a = true → a = b) →
      l₁ = l₂ := by
  intro l₁
  induction l₁ with
  | nil =>
    intro l₂ hp _ _ _
    exact (List.Perm.eq_nil hp.symm).symm
  | cons a t₁ ih =>
    intro l₂ hp hs₁ hs₂ hanti
    cases l₂ with
    | nil => exact absurd (List.Perm.eq_nil hp) (by simp)
    | cons b t₂ =>
      have hab : a = b := by
        rcases List.mem_cons.mp (hp.subset (List.mem_cons_self a t₁)) with h | ha'
        · exact h
        · rcases List.mem_cons.mp (hp.symm.subset (List.mem_cons_self b t₂)) with h | hb'
          · exact h.symm
          · have h1 : le a b = true := (List.pairwise_cons.mp hs₁).1 b hb'
            have h2 : le b a = true := (List.pairwise_cons.mp hs₂).1 a ha'
            exact hanti a (List.mem_cons_self a t₁) b (List.mem_cons.mpr (Or.inr hb')) h1 h2
      subst hab
      have htail := ih t₂ hp.cons_inv (List.pairwise_cons.mp hs₁).2
        (List.pairwise_cons.mp hs₂).2
        (fun x hx y hy => hanti x (List.mem_cons.mpr (Or.inr hx)) y (List.mem_cons.mpr (Or.inr hy)))
      rw [htail]

/-- `Nat.xor` is right-commutative. -/
theorem natxor_right_comm (x y z : Nat) : Nat.xor (Nat.xor x y) z = Nat.xor (Nat.xor x z) y := by
  change x ^^^ y ^^^ z = x ^^^ z ^^^ y
  rw [Nat.xor_assoc, Nat.xor_assoc, Nat.xor_comm y z]

/-- XOR-folding is right-commutative, pointwise by `Nat.xor`. -/
theorem xorBytes_right_comm (a : Bytes) : ∀ b c : Bytes,
    xorBytes (xorBytes a b) c = xorBytes (xorBytes a c) b := by
  induction a with
  | nil => intro b c; simp [xorBytes]
  | cons x xs ih =>
    intro b c
    cases b with
    | nil => simp [xorBytes]
    | cons y ys =>
      cases c with
      | nil => simp [xorBytes]
      | cons z zs =>
        simp only [xorBytes, List.zipWith_cons_cons]
        rw [natxor_right_comm x y z]
        exact congrArg _ (ih ys zs)

/-- The salt is invariant under permutation of the encoded batches: the XOR
combination is order-independent by construction. -/
theorem xorTransactions_perm (bs bs' : List Bytes) (hp : bs.Perm bs') :
    xorTransactions bs = xorTransactions bs' := by
  unfold xorTransactions
  haveI : RightCommutative (fun (acc : Bytes) (t : Bytes) => xorBytes acc (sha256 t)) :=
    ⟨fun acc t1 t2 => xorBytes_right_comm acc (sha256 t1) (sha256 t2)⟩
  exact hp.foldl_eq _

/-- A successful first-failure traversal succeeds pointwise, in order. -/
theorem mapExcept_ok_map {α β : Type _} {f : α → Except String β} :
    ∀ {l : List α} {ys : List β}, mapExcept f l = Except.ok ys
      → l.map f = ys.map Except.ok := by
  intro l
  induction l with
  | nil =>
    intro ys h
    simp only [mapExcept, Except.ok.injEq] at h
    subst h
    rfl
  | cons x xs ih =>
    intro ys h
    simp only [mapExcept] at h
    cases hfx : f x with
    | error e => rw [hfx] at h; exact absurd h (by simp)
    | ok y =>
      rw [hfx] at h
      cases hrest : mapExcept f xs with
      | error e => rw [hrest] at h; exact absurd h (by simp)
      | ok ys' =>
        rw [hrest] at h
        have := Except.ok.inj h
        subst this
        simp [hfx, ih hrest]

/-- A lossless codec undoes all its own encodings, in order. -/
theorem unmarshal_of_marshal (c : Codec)
    (hrt : ∀ t b, c.marshal t = Except.ok b → c.unmarshal b = Except.ok t) :
    ∀ (ts : List ClientTransaction) (bs : List Bytes),
      ts.map c.marshal = bs.map Except.ok → bs.map c.unmarshal = ts.map Except.ok := by
  intro ts
  induction ts with
  | nil =>
    intro bs h
    cases bs with
    | nil => rfl
    | cons b bs' => simp at h
  | cons t ts' ih =>
    intro bs h
    cases bs with
    | nil => simp at h
    | cons b bs' =>
      simp only [List.map_cons, List.cons.injEq] at h
      simp [hrt t b h.1, ih bs' h.2]

/-- A spawn action label never reads `"invalid"` (the heads differ). -/
theorem spawn_label_ne_invalid (k : String) : "spawn:" ++ k ≠ "invalid" := by
  intro h
  have hd := congrArg String.data h
  rw [show ("spawn:" ++ k).data = 's' :: 'p' :: 'a' :: 'w' :: 'n' :: ':' :: k.data from rfl] at hd
  rw [show "invalid".data = ['i', 'n', 'v', 'a', 'l', 'i', 'd'] from rfl] at hd
  simp at hd

/-- An invoke action label never reads `"invalid"` (position 3 differs). -/
theorem invoke_label_ne_invalid (k : String) : "invoke:" ++ k ≠ "invalid" := by
  intro h
  have hd := congrArg String.data h
  rw [show ("invoke:" ++ k).data = 'i' :: 'n' :: 'v' :: 'o' :: 'k' :: 'e' :: ':' :: k.data from rfl] at hd
  rw [show "invalid".data = ['i', 'n', 'v', 'a', 'l', 'i', 'd'] from rfl] at hd
  simp at hd

/-- A spawn action label never reads `"_evolve"`. -/
theorem spawn_label_ne_evolve (k : String) : "spawn:" ++ k ≠ "_evolve" := by
  intro h
  have hd := congrArg String.data h
  rw [show ("spawn:" ++ k).data = 's' :: 'p' :: 'a' :: 'w' :: 'n' :: ':' :: k.data from rfl] at hd
  rw [show "_evolve".data = ['_', 'e', 'v', 'o', 'l', 'v', 'e'] from rfl] at hd
  simp at hd

/-- An invoke action label never reads `"_evolve"`. -/
theorem invoke_label_ne_evolve (k : String) : "invoke:" ++ k ≠ "_evolve" := by
  intro h
  have hd := congrArg String.data h
  rw [show ("invoke:" ++ k).data = 'i' :: 'n' :: 'v' :: 'o' :: 'k' :: 'e' :: ':' :: k.data from rfl] at hd
  rw [show "_evolve".data = ['_', 'e', 'v', 'o', 'l', 'v', 'e'] from rfl] at hd
  simp at hd

/-- No instruction's action label is the reserved darc-evolution action
`"_evolve"`: `Action` only produces `"invalid"`, `"spawn:…"`, `"invoke:…"` or
`"Delete"`. -/
theorem action_ne_evolve (instr : Instruction) : instr.Action ≠ "_evolve" := by
  unfold Instruction.Action
  rcases instr.spawn with _ | s <;> rcases instr.invoke with _ | iv <;>
    rcases instr.delete with _ | u <;>
    simp [spawn_label_ne_evolve, invoke_label_ne_evolve]

/-- `copy` of a 32-byte digest into a zeroed 32-byte nonce is the digest. -/
theorem nonceOfBytes_of_len32 (b : Bytes) (h : b.length = 32) : nonceOfBytes b = b := by
  simp [nonceOfBytes, h, List.take_of_length_le (le_of_eq h)]

/-! ### Shared concrete inputs used by witnesses and counterexamples -/

/-- A sample object reference. -/
def oidEx : ObjectID := ⟨[1], [2]⟩

/-- An instruction with both Spawn and Invoke payloads set (invalid shape). -/
def instrBoth : Instruction := ⟨oidEx, [], 0, 1, some ⟨"x", []⟩, some ⟨"y", []⟩, none, []⟩

/-- A well-formed Delete instruction. -/
def instrDel : Instruction := ⟨oidEx, [], 0, 1, none, none, some (), []⟩

/-- A well-formed Spawn instruction for contract kind `"x"`. -/
def instrSpawnEx : Instruction := ⟨oidEx, [], 0, 1, some ⟨"x", []⟩, none, none, []⟩

/-- A darc-evolution invocation, with no `"darc"` argument attached. -/
def instrInvokeEx : Instruction := ⟨oidEx, [], 0, 1, none, some ⟨"evolve", []⟩, none, []⟩

/-- A store view in which every key is absent. -/
def collAbsent : CollectionView := ⟨fun _ => Except.error CollErr.notFound⟩

/-- A store view in which every record is malformed. -/
def collMalformed : CollectionView := ⟨fun _ => Except.error CollErr.malformed⟩

/-- A store view with one stored two-value record everywhere. -/
def collStored : CollectionView := ⟨fun _ => Except.ok ([7], [120])⟩

/-! ### Claims -/

/-- C1: the claim reads the `"_evolve"` special case of `ToDarcRequest` as
live behaviour, but the branch is unreachable: no instruction's action label
can be `"_evolve"`, so every request — including the darc-evolution
invocation `instrInvokeEx`, which carries no `"darc"` argument at all — is
built with message digest `Hash(instruction)` and without error. The code
contradicts its own comment, which requires the digest of an evolution
request to be the new darc's identifier for verification to pass. -/
theorem claimC1_evolution_branch_unreachable :
    (∀ instr : Instruction, instr.Action ≠ "_evolve") ∧
    instrInvokeEx.ToDarcRequest
      = Except.ok (initRequest [1] "invoke:evolve" instrInvokeEx.Hash [] []) := by
  refine ⟨action_ne_evolve, ?_⟩
  simp [Instruction.ToDarcRequest, instrInvokeEx, Instruction.Action, oidEx, initRequest]

/-- C2 counterexample: for an operation with both Spawn and Invoke set,
`GetType` does classify it as invalid, but `Action()` returns the spawn label
`"spawn:x"`, not the sentinel `"invalid"` — the Go `switch` takes the first
non-nil payload. -/
theorem claimC2_cex :
    instrBoth.spawn ≠ none ∧ instrBoth.invoke ≠ none ∧
    instrBoth.GetType = InstrType.InvalidInstrType ∧
    instrBoth.Action = "spawn:x" ∧ instrBoth.Action ≠ "invalid" := by
  refine ⟨by decide, by decide, by decide, by decide, by decide⟩

/-- C2 (amended): for every operation with zero or more than one payloads
set, `GetType` classifies it as the invalid type, while `Action()` returns
the sentinel `"invalid"` exactly when zero payloads are set (with more than
one set it returns the label of the first set payload in Spawn, Invoke,
Delete order). -/
theorem claimC2_amended (instr : Instruction) (h : payloadCount instr ≠ 1) :
    instr.GetType = InstrType.InvalidInstrType ∧
    (instr.Action = "invalid" ↔ payloadCount instr = 0) := by
  rcases hs : instr.spawn with _ | s <;> rcases hi : instr.invoke with _ | iv <;>
    rcases hd : instr.delete with _ | u <;>
    simp only [payloadCount, hs, hi, hd] at h ⊢ <;>
    simp_all [Instruction.GetType, Instruction.Action, hs, hi, hd,
      spawn_label_ne_invalid, invoke_label_ne_invalid]

/-- C2 witness: the amended statement applied to the both-set instruction. -/
theorem claimC2_witness :
    payloadCount instrBoth ≠ 1 ∧
    (instrBoth.GetType = InstrType.InvalidInstrType ∧
      (instrBoth.Action = "invalid" ↔ payloadCount instrBoth = 0)) :=
  ⟨by decide, claimC2_amended instrBoth (by decide)⟩

/-- C3: `GetContractState` of a Spawn operation returns the payload's
contract kind with empty state and no error, whatever the store holds;
for a non-Spawn operation it looks up the serialized target `ObjectID`,
propagating the store's not-found or malformed-record error verbatim, and on
success decodes the two-value record as state (value 0) and contract kind
(value 1). -/
theorem claimC3_getContractState (instr : Instruction) (coll : CollectionView) :
    (∀ s, instr.spawn = some s →
      instr.GetContractState coll = Except.ok (s.contractID, [])) ∧
    (∀ e, instr.spawn = none → coll.get instr.objectID.slice = Except.error e →
      instr.GetContractState coll = Except.error e) ∧
    (∀ cv, instr.spawn = none → coll.get instr.objectID.slice = Except.ok cv →
      instr.GetContractState coll = Except.ok (strOfBytes cv.2, cv.1)) := by
  refine ⟨?_, ?_, ?_⟩
  · intro s hs
    simp [Instruction.GetContractState, hs]
  · intro e hs hg
    simp [Instruction.GetContractState, hs, hg]
  · intro cv hs hg
    simp [Instruction.GetContractState, hs, hg]

/-- C3 witness: a Spawn against an empty store, a Delete against an absent
key, a malformed record, and a stored record. -/
theorem claimC3_witness :
    instrSpawnEx.GetContractState collAbsent = Except.ok ("x", []) ∧
    instrDel.GetContractState collAbsent = Except.error CollErr.notFound ∧
    instrDel.GetContractState collMalformed = Except.error CollErr.malformed ∧
    instrDel.GetContractState collStored = Except.ok (strOfBytes [120], [7]) :=
  ⟨(claimC3_getContractState instrSpawnEx collAbsent).1 ⟨"x", []⟩ rfl,
   (claimC3_getContractState instrDel collAbsent).2.1 CollErr.notFound rfl rfl,
   (claimC3_getContractState instrDel collMalformed).2.1 CollErr.malformed rfl rfl,
   (claimC3_getContractState instrDel collStored).2.2 ([7], [120]) rfl rfl⟩

/-- C7: for every operation satisfying the exactly-one-payload invariant,
`Instruction.Hash` is the SHA-256 digest of the byte layout the spec states —
policy ID, instance ID, nonce, little-endian 32-bit index and length, the
payload tag, the contract kind when Spawn, then arguments as name/value in
order — with the Invoke command string absent from the preimage. -/
theorem claimC7_hash_layout (instr : Instruction) (h : payloadCount instr = 1) :
    instr.Hash = sha256 (specHashLayout instr) := by
  rcases hs : instr.spawn with _ | s <;> rcases hi : instr.invoke with _ | iv <;>
    rcases hd : instr.delete with _ | u <;>
    simp only [payloadCount, hs, hi, hd] at h <;>
    simp_all [Instruction.Hash, instrHashInput, specHashLayout, hs, hi, hd]

/-- C7 witness: the layout equation at a concrete Invoke instruction. -/
theorem claimC7_witness :
    payloadCount instrInvokeEx = 1 ∧
    instrInvokeEx.Hash = sha256 (specHashLayout instrInvokeEx) :=
  ⟨by decide, claimC7_hash_layout instrInvokeEx (by decide)⟩

/-- C8: for every operation whose action label is not the evolution action,
`ToDarcRequest` succeeds, and the built request carries the governing darc's
base ID, the label `Action()`, message digest `Hash(operation)`, and the
identities and raw signatures taken in order from the signature list. -/
theorem claimC8_toDarcRequest (instr : Instruction) (h : instr.Action ≠ "_evolve") :
    instr.ToDarcRequest = Except.ok (initRequest instr.objectID.darcID instr.Action
      instr.Hash (instr.signatures.map fun s => s.signer)
      (instr.signatures.map fun s => s.signature)) := by
  simp [Instruction.ToDarcRequest, h]

/-- C8 witness: the Delete instruction's request has action label exactly
`"Delete"` and digest `Hash(operation)`. -/
theorem claimC8_witness :
    instrDel.Action ≠ "_evolve" ∧
    instrDel.ToDarcRequest = Except.ok (initRequest [1] "Delete" instrDel.Hash [] []) :=
  ⟨by decide, claimC8_toDarcRequest instrDel (by decide)⟩

/-- C9: `DeriveID` keeps the operation's own target darc ID as policy ID and
sets the instance ID to the SHA-256 digest of the purpose string, then
`Hash(operation)`, then each attached signature's raw bytes in list order —
signer identities excluded. -/
theorem claimC9_deriveID (instr : Instruction) (what : String) :
    instr.DeriveID what = ⟨instr.objectID.darcID,
      sha256 (strBytes what ++ instr.Hash
        ++ (instr.signatures.map fun s => s.signature).flatten)⟩ := by
  simp only [Instruction.DeriveID]
  rw [nonceOfBytes_of_len32 _ (sha256_length _)]

/-- When an entry's encoding fails nothing is written for it, so the digest
input equals that of the encodable entries alone. -/
theorem flatten_getD_filter (enc : StateChange → Option Bytes) (scs : List StateChange) :
    (scs.map fun sc => (enc sc).getD []).flatten
      = ((scs.filter fun sc => (enc sc).isSome).map fun sc => (enc sc).getD []).flatten := by
  induction scs with
  | nil => rfl
  | cons sc rest ih => cases h : enc sc <;> simp [h, ih]

/-- C10: `StateChanges.Hash` always produces a 32-byte digest and surfaces no
failure; an entry whose protobuf encoding fails contributes nothing to the
running hash, so the digest silently equals that of the encodable entries. -/
theorem claimC10_stateChangesHash (enc : StateChange → Option Bytes) (scs : List StateChange) :
    (stateChangesHash enc scs).length = 32 ∧
    stateChangesHash enc scs
      = stateChangesHash enc (scs.filter fun sc => (enc sc).isSome) :=
  ⟨sha256_length _, by unfold stateChangesHash; rw [flatten_getD_filter]⟩

/-- C4: if encoding any batch or decoding any sorted encoding fails,
`sortTransactions` returns that error and the batch-set contents are left
exactly as they were: the in-place mutation is all-or-nothing. -/
theorem claimC4_allOrNothing (c : Codec) (ts : List ClientTransaction) (e : String)
    (h : (sortTransactions c ts).1 = Except.error e) :
    (sortTransactions c ts).2 = ts := by
  unfold sortTransactions at h ⊢
  cases hm : mapExcept c.marshal ts with
  | error e' => simp [hm]
  | ok bs =>
    simp only [hm] at h ⊢
    cases hu : mapExcept c.unmarshal (sortWithSalt bs (xorTransactions bs)) with
    | error e' => simp [hu]
    | ok sortedTs => simp [hu] at h

/-- A codec that always fails to encode. -/
def failCodec : Codec :=
  ⟨fun _ => Except.error "marshal failure", fun _ => Except.error "marshal failure"⟩

/-- The empty batch. -/
def ct0 : ClientTransaction := ⟨[]⟩

/-- C4 witness: a failing codec aborts the ordering and leaves the singleton
batch-set untouched. -/
theorem claimC4_witness :
    (sortTransactions failCodec [ct0]).1 = Except.error "marshal failure" ∧
    (sortTransactions failCodec [ct0]).2 = [ct0] :=
  ⟨rfl, claimC4_allOrNothing failCodec [ct0] "marshal failure" rfl⟩

/-- C5: whenever the wire codec is lossless (decoding undoes encoding, as §6
requires) and `sortTransactions` succeeds, the resulting contents are a
permutation of the original batches: no batch is removed or duplicated. -/
theorem claimC5_permutation (c : Codec)
    (hrt : ∀ t b, c.marshal t = Except.ok b → c.unmarshal b = Except.ok t)
    (ts : List ClientTransaction) (h : (sortTransactions c ts).1 = Except.ok ()) :
    (sortTransactions c ts).2.Perm ts := by
  unfold sortTransactions at h ⊢
  cases hm : mapExcept c.marshal ts with
  | error e => simp [hm] at h
  | ok bs =>
    simp only [hm] at h ⊢
    cases hu : mapExcept c.unmarshal (sortWithSalt bs (xorTransactions bs)) with
    | error e => simp [hu] at h
    | ok sortedTs =>
      simp only [hu]
      have h1 : ts.map c.marshal = bs.map Except.ok := mapExcept_ok_map hm
      have h2 : (sortWithSalt bs (xorTransactions bs)).map c.unmarshal
          = sortedTs.map Except.ok := mapExcept_ok_map hu
      have h3 : bs.map c.unmarshal = ts.map Except.ok := unmarshal_of_marshal c hrt ts bs h1
      have hperm : (sortWithSalt bs (xorTransactions bs)).Perm bs := List.mergeSort_perm _ _
      have h4 : (sortedTs.map (Except.ok : ClientTransaction → Except String ClientTransaction)).Perm
          (ts.map Except.ok) := by
        rw [← h2, ← h3]
        exact hperm.map _
      have h5 := Multiset.coe_eq_coe.mpr h4
      rw [← Multiset.map_coe, ← Multiset.map_coe] at h5
      exact Multiset.coe_eq_coe.mp
        (Multiset.map_injective (fun x y hxy => Except.ok.inj hxy) h5)

/-- A lossless codec for the single batch `ct0`. -/
def oneCodec : Codec :=
  ⟨fun t => if t = ct0 then Except.ok [0] else Except.error "unsupported",
   fun b => if b = [0] then Except.ok ct0 else Except.error "Data of wrong type"⟩

/-- `oneCodec` decodes everything it encodes. -/
theorem oneCodec_roundtrip : ∀ t b, oneCodec.marshal t = Except.ok b →
    oneCodec.unmarshal b = Except.ok t := by
  intro t b h
  by_cases hc : t = ct0
  · subst hc
    rw [show oneCodec.marshal ct0 = Except.ok [0] from rfl] at h
    have hb := Except.ok.inj h
    subst hb
    rfl
  · rw [show oneCodec.marshal t = if t = ct0 then Except.ok [0] else Except.error "unsupported"
      from rfl, if_neg hc] at h
    exact absurd h (by simp)

/-- C5 witness: ordering a singleton batch-set with a lossless codec succeeds
and permutes nothing. -/
theorem claimC5_witness :
    (sortTransactions oneCodec [ct0]).1 = Except.ok () ∧
    (sortTransactions oneCodec [ct0]).2.Perm [ct0] :=
  ⟨by simp [sortTransactions, mapExcept, oneCodec, sortWithSalt],
   claimC5_permutation oneCodec oneCodec_roundtrip [ct0]
     (by simp [sortTransactions, mapExcept, oneCodec, sortWithSalt])⟩

/-- C6: permuting the encoded batches does not change the salt (the XOR of
their digests is order-independent), and — provided the salted keys do not
collide on the input, the cryptographic assumption §4.6 makes about ties —
a permuted input yields the byte-identical ordered output, the output is
sorted ascending by salted SHA-256 key, and re-ordering an already-ordered
batch-set is a fixed point. -/
theorem claimC6_order_canonical (bs bs' : List Bytes) (hp : bs.Perm bs')
    (hinj : ∀ a ∈ bs, ∀ b ∈ bs,
      saltedKey (xorTransactions bs) a = saltedKey (xorTransactions bs) b → a = b) :
    xorTransactions bs = xorTransactions bs' ∧
    orderBytes bs = orderBytes bs' ∧
    (orderBytes bs).Pairwise (fun x y => saltedLE (xorTransactions bs) x y = true) ∧
    orderBytes (orderBytes bs) = orderBytes bs := by
  have hsalt : xorTransactions bs = xorTransactions bs' := xorTransactions_perm bs bs' hp
  have hanti : ∀ a ∈ bs, ∀ b ∈ bs, saltedLE (xorTransactions bs) a b = true →
      saltedLE (xorTransactions bs) b a = true → a = b := by
    intro a ha b hb h1 h2
    simp only [saltedLE, decide_eq_true_eq] at h1 h2
    exact hinj a ha b hb (bytesCompare_antisymm h1 h2)
  have hsorted : (orderBytes bs).Pairwise
      (fun x y => saltedLE (xorTransactions bs) x y = true) :=
    List.sorted_mergeSort (saltedLE_trans (xorTransactions bs))
      (saltedLE_total (xorTransactions bs)) bs
  have hsorted' : (orderBytes bs').Pairwise
      (fun x y => saltedLE (xorTransactions bs) x y = true) := by
    rw [orderBytes, ← hsalt]
    exact List.sorted_mergeSort (saltedLE_trans (xorTransactions bs))
      (saltedLE_total (xorTransactions bs)) bs'
  have hpermo : (orderBytes bs).Perm (orderBytes bs') :=
    ((List.mergeSort_perm bs _).trans hp).trans (by
      rw [orderBytes, ← hsalt]
      exact (List.mergeSort_perm bs' _).symm)
  refine ⟨hsalt, ?_, hsorted, ?_⟩
  · exact sorted_perm_eq _ (orderBytes bs) (orderBytes bs') hpermo hsorted hsorted'
      (fun a ha b hb => hanti a (List.mem_mergeSort.mp ha) b (List.mem_mergeSort.mp hb))
  · have hsalt2 : xorTransactions (orderBytes bs) = xorTransactions bs :=
      xorTransactions_perm _ _ (List.mergeSort_perm bs _)
    rw [show orderBytes (orderBytes bs)
        = sortWithSalt (orderBytes bs) (xorTransactions (orderBytes bs)) from rfl, hsalt2]
    exact List.mergeSort_of_sorted hsorted

set_option maxRecDepth 1000000 in
/-- C6 witness: two batches in both orders; their salted keys are distinct,
both orderings agree, the result is sorted and re-ordering it is the
identity. -/
theorem claimC6_witness :
    ([[1], [2]] : List Bytes).Perm [[2], [1]] ∧
    (xorTransactions [[1], [2]] = xorTransactions [[2], [1]] ∧
     orderBytes [[1], [2]] = orderBytes [[2], [1]] ∧
     (orderBytes [[1], [2]]).Pairwise
       (fun x y => saltedLE (xorTransactions [[1], [2]]) x y = true) ∧
     orderBytes (orderBytes [[1], [2]]) = orderBytes [[1], [2]]) :=
  ⟨List.Perm.swap _ _ _,
   claimC6_order_canonical [[1], [2]] [[2], [1]] (List.Perm.swap _ _ _) (by
     intro a ha b hb hk
     simp only [List.mem_cons, List.not_mem_nil, or_false] at ha hb
     rcases ha with rfl | rfl <;> rcases hb with rfl | rfl
     · rfl
     · exact absurd hk (by decide)
     · exact absurd hk (by decide)
     · rfl)⟩

end OLT
